import Mathlib

/-!
# Verification of the `tunnels` audio-streaming client

A shallow embedding of the repository's core code:

* `tunnels/audio.py` — `AudioStream` (`validate_config`, `encode_chunk`,
  `get_total_chunks`, `read_chunks`);
* `tunnels/client.py` — `AudioClient` (`send_audio`, `receive_messages`,
  `run`, `shutdown`);
* `test_client.py` — the ad-hoc duplicate client.

Modelling conventions:

* A mono 16-bit WAV file is a `WavFile`: its header fields plus the list of
  signed 16-bit samples (for mono audio, one frame = one sample).
* Python's `float` chunk duration is modelled as an exact rational `ℚ`;
  `int(x)` (truncation toward zero) is `pyInt`, and integer `//` (floor
  division) is `pyFloorDiv`.
* `wave.readframes n` on the remaining sample list returns `samples.take n`
  (it returns at most `n` frames, and `b''` at end of file or for `n = 0`).
* Exceptions are modelled with `Except`/`Option`: a `ZeroDivisionError` in
  `get_total_chunks` is `none`; `validate_config` returns
  `Except ConfigError Unit`.
* The two concurrent duties of the client are modelled as trace-driven
  functions: the values of the shared shutdown flag at each read and the
  outcome of each transport operation are inputs, and the duty's observable
  behaviour (payloads sent, log lines, sleeps) is the output event list.
-/

/-- Python `int(q)` for a rational: truncation toward zero. -/
def pyInt (q : ℚ) : ℤ :=
  if 0 ≤ q then ⌊q⌋ else ⌈q⌉

/-- Python `a // b` on integers: floor division (only used with `b ≠ 0`;
the `b = 0` case is handled by the caller as a `ZeroDivisionError`). -/
def pyFloorDiv (a b : ℤ) : ℤ := ⌊(a : ℚ) / (b : ℚ)⌋

/-- `chunk_frames = int(self.chunk_duration * self.sample_rate)`
(`audio.py` lines 49 and 56, `test_client.py` line 68). -/
def chunkFrames (d : ℚ) (r : ℤ) : ℤ := pyInt (d * r)

/-- The header data and sample content of a parsed WAV file, as exposed by
Python's `wave` module: `getframerate`, `getsampwidth` (bytes per sample),
`getnchannels`, and the frames themselves (`getnframes = samples.length`
for mono audio). Samples are the signed 16-bit values. -/
structure WavFile where
  framerate : ℕ
  sampwidth : ℕ
  nchannels : ℕ
  samples : List ℤ
  deriving DecidableEq

/-- What the configured `source` path points at: nothing (`Path.exists`
false), an existing file that `wave.open` rejects (raising `wave.Error`
with message `err`), or a parseable WAV file. -/
inductive SourceFile where
  | missing
  | notWav (err : String)
  | wav (f : WavFile)
  deriving DecidableEq

/-- `self.source.exists()` in `validate_config`. -/
def SourceFile.srcExists : SourceFile → Bool
  | .missing => false
  | _ => true

/-- The distinct `ValueError`s raised by `AudioStream.validate_config`
(`audio.py` lines 18-40). Each constructor carries the values interpolated
into the corresponding f-string. -/
inductive ConfigError where
  | fileNotFound
  | invalidChunkDuration
  | invalidSampleRate
  | sampleRateMismatch (expected : ℤ) (actual : ℕ)
  | notSixteenBit
  | notMono
  | invalidWav (err : String)
  deriving DecidableEq

/-- A numbering of the `ConfigError` cases, used to state that distinct
failure cases produce distinct messages. -/
def ConfigError.ctorIdx : ConfigError → ℕ
  | .fileNotFound => 0
  | .invalidChunkDuration => 1
  | .invalidSampleRate => 2
  | .sampleRateMismatch _ _ => 3
  | .notSixteenBit => 4
  | .notMono => 5
  | .invalidWav _ => 6

/-- The error message of each `ValueError` in `validate_config`.
`srcR`/`dR` are Python's renderings `str(self.source)` and
`str(self.chunk_duration)`, passed in abstractly; integer values carried by
the error are rendered with `toString`. -/
def ConfigError.message (srcR dR : String) : ConfigError → String
  | .fileNotFound => "Audio file not found: " ++ srcR
  | .invalidChunkDuration => "Invalid chunk duration: " ++ dR
  | .invalidSampleRate => "Invalid sample rate: " ++ dR
  | .sampleRateMismatch expected actual =>
      "Expected sample rate " ++ (toString expected ++ (", got " ++ toString actual))
  | .notSixteenBit => "Only 16-bit PCM WAV files are supported"
  | .notMono => "Only mono audio is supported"
  | .invalidWav err => "Invalid WAV file: " ++ err

/-- `AudioStream.validate_config` (`audio.py` lines 18-40): existence,
duration, rate, then — inside the `try`/`except wave.Error` — the file
format checks. A `wave.Error` on open becomes the `invalidWav` error; the
`ValueError`s raised by the inner checks are not caught by
`except wave.Error` and propagate unchanged. -/
def validate_config (src : SourceFile) (d : ℚ) (r : ℤ) : Except ConfigError Unit :=
  if src.srcExists = false then .error .fileNotFound
  else if d ≤ 0 then .error .invalidChunkDuration
  else if r ≤ 0 then .error .invalidSampleRate
  else
    match src with
    | .missing => .error .fileNotFound
    | .notWav err => .error (.invalidWav err)
    | .wav f =>
      if (f.framerate : ℤ) ≠ r then .error (.sampleRateMismatch r f.framerate)
      else if f.sampwidth ≠ 2 then .error .notSixteenBit
      else if f.nchannels ≠ 1 then .error .notMono
      else .ok ()

/-- `AudioStream.get_total_chunks` (`audio.py` lines 47-52):
`chunk_frames = int(self.chunk_duration * self.sample_rate)` and then
`(frames + chunk_frames - 1) // chunk_frames`; `none` models the
`ZeroDivisionError` raised when `chunk_frames = 0`. -/
def get_total_chunks (d : ℚ) (r : ℤ) (f : WavFile) : Option ℤ :=
  let chunk_frames := chunkFrames d r
  let frames : ℤ := f.samples.length
  if chunk_frames = 0 then none
  else some (pyFloorDiv (frames + chunk_frames - 1) chunk_frames)

/-- `AudioStream.read_chunks` (`audio.py` lines 54-65): repeatedly
`readframes chunk_frames`; an empty read (`not frames`) breaks the loop,
otherwise the read frames are yielded as one chunk. `readframes C` on a
file whose remaining samples are `samples` returns `samples.take C`
(empty iff `C = 0` or the file is exhausted). -/
def read_chunks (samples : List ℤ) (C : ℕ) : List (List ℤ) :=
  if h : samples.take C = [] then []
  else samples.take C :: read_chunks (samples.drop C) C
termination_by samples.length
decreasing_by
  rw [List.take_eq_nil_iff] at h
  push_neg at h
  have h1 : samples.length ≠ 0 := by
    intro hlen
    exact h.2 (List.eq_nil_of_length_eq_zero hlen)
  simp only [List.length_drop]
  omega

/-- Character `i` of the standard base64 alphabet
(`A`-`Z`, `a`-`z`, `0`-`9`, `+`, `/`), as used by `base64.b64encode`. -/
def b64char (n : ℕ) : Char :=
  if n < 26 then Char.ofNat (65 + n)
  else if n < 52 then Char.ofNat (97 + (n - 26))
  else if n < 62 then Char.ofNat (48 + (n - 52))
  else if n = 62 then '+'
  else '/'

/-- Index of a character in the base64 alphabet (`none` for characters
outside the alphabet). -/
def b64index (c : Char) : Option ℕ :=
  if 65 ≤ c.toNat ∧ c.toNat ≤ 90 then some (c.toNat - 65)
  else if 97 ≤ c.toNat ∧ c.toNat ≤ 122 then some (26 + (c.toNat - 97))
  else if 48 ≤ c.toNat ∧ c.toNat ≤ 57 then some (52 + (c.toNat - 48))
  else if c = '+' then some 62
  else if c = '/' then some 63
  else none

/-- `base64.b64encode` on a byte string (each element `< 256`): groups of
three bytes become four alphabet characters; a final group of one or two
bytes is zero-extended and padded with `=`. -/
def b64encode : List ℕ → List Char
  | [] => []
  | [a] => [b64char (a / 4), b64char (a % 4 * 16), '=', '=']
  | [a, b] => [b64char (a / 4), b64char (a % 4 * 16 + b / 16), b64char (b % 16 * 4), '=']
  | a :: b :: c :: rest =>
      b64char (a / 4) :: b64char (a % 4 * 16 + b / 16) ::
        b64char (b % 16 * 4 + c / 64) :: b64char (c % 64) :: b64encode rest

/-- `base64.b64decode`: inverse of `b64encode`; groups of four characters
(the last possibly `=`-padded) become three (or two, or one) bytes. -/
def b64decode : List Char → Option (List ℕ)
  | [] => some []
  | c1 :: c2 :: c3 :: c4 :: rest =>
    if c3 = '=' ∧ c4 = '=' ∧ rest = [] then
      match b64index c1, b64index c2 with
      | some s1, some s2 => some [s1 * 4 + s2 / 16]
      | _, _ => none
    else if c4 = '=' ∧ rest = [] then
      match b64index c1, b64index c2, b64index c3 with
      | some s1, some s2, some s3 => some [s1 * 4 + s2 / 16, s2 % 16 * 16 + s3 / 4]
      | _, _, _ => none
    else
      match b64index c1, b64index c2, b64index c3, b64index c4, b64decode rest with
      | some s1, some s2, some s3, some s4, some tail =>
          some ((s1 * 4 + s2 / 16) :: (s2 % 16 * 16 + s3 / 4) :: (s3 % 4 * 64 + s4) :: tail)
      | _, _, _, _, _ => none
  | _ => none

/-- IEEE-754 binary32 bit pattern of the positive value `m / 32768` for a
magnitude `1 ≤ m ≤ 32768`: the value is `(1 + frac/2^23) * 2^(k-15)` with
`k = ⌊log2 m⌋`, so the biased exponent is `127 + k - 15 = 112 + k` and the
fraction field is `(m - 2^k) * 2^(23-k)`. Conversion of an int16 sample to
float32 and division by `32768.0` are both exact (the magnitude is below
`2^24` and the division only shifts the exponent), so this is exactly the
bit pattern `np.float32(m) / 32768.0` produces; the theorem
`f32ValOfBits_magBits` checks it decodes to `m / 32768`. -/
def magBits (m : ℕ) : ℕ :=
  (112 + Nat.log2 m) * 2 ^ 23 + (m - 2 ^ Nat.log2 m) * 2 ^ (23 - Nat.log2 m)

/-- Bit pattern of the float32 value `s / 32768` for an int16 sample `s`
(sign bit plus `magBits` of the magnitude; `0` for `s = 0`). -/
def int16ToF32Bits (s : ℤ) : ℕ :=
  if s = 0 then 0
  else if s < 0 then 2 ^ 31 + magBits s.natAbs
  else magBits s.natAbs

/-- The magnitude denoted by an IEEE-754 binary32 bit pattern: biased
exponent `e = bits / 2^23 % 2^8`, fraction `frac = bits % 2^23`; subnormal
`frac/2^23 * 2^(-126)` for `e = 0`, normal `(1 + frac/2^23) * 2^(e-127)`
otherwise. -/
def f32Mag (bits : ℕ) : ℚ :=
  if bits / 2 ^ 23 % 2 ^ 8 = 0 then
    ((bits % 2 ^ 23 : ℕ) : ℚ) / 2 ^ 23 * (2 : ℚ) ^ (-(126 : ℤ))
  else
    (1 + ((bits % 2 ^ 23 : ℕ) : ℚ) / 2 ^ 23)
      * (2 : ℚ) ^ (((bits / 2 ^ 23 % 2 ^ 8 : ℕ) : ℤ) - 127)

/-- The real value denoted by an IEEE-754 binary32 bit pattern: `f32Mag`
with the sign bit applied (`e = 255` NaN/infinity patterns never arise
from `int16ToF32Bits` and are not given a value here). -/
def f32ValOfBits (bits : ℕ) : ℚ :=
  if bits / 2 ^ 31 = 0 then f32Mag bits else -f32Mag bits

/-- The four bytes of a 32-bit word in little-endian order
(`numpy.float32.tobytes` layout). -/
def bytesLE4 (bits : ℕ) : List ℕ :=
  [bits % 256, bits / 256 % 256, bits / 2 ^ 16 % 256, bits / 2 ^ 24 % 256]

/-- Reassemble a 32-bit word from four little-endian bytes. -/
def bitsOfBytesLE4 (b0 b1 b2 b3 : ℕ) : ℕ :=
  b0 + 256 * b1 + 2 ^ 16 * b2 + 2 ^ 24 * b3

/-- `AudioStream.encode_chunk` (`audio.py` lines 42-45):
`base64.b64encode((chunk.astype(np.float32) / 32768.0).tobytes())` — each
int16 sample becomes the float32 value `s / 32768`, the float32 words are
laid out little-endian in array order, and the byte string is
base64-encoded. The result is the character sequence of the payload
string. -/
def encode_chunk (chunk : List ℤ) : List Char :=
  b64encode ((chunk.map fun s => bytesLE4 (int16ToF32Bits s)).flatten)

/-- Parse a byte string as consecutive little-endian 32-bit floats. -/
def f32ListOfBytes : List ℕ → List ℚ
  | b0 :: b1 :: b2 :: b3 :: rest =>
      f32ValOfBits (bitsOfBytesLE4 b0 b1 b2 b3) :: f32ListOfBytes rest
  | _ => []

/-- The decoding pipeline of the claim: base64-decode the payload to
little-endian 32-bit floats, multiply each by `32768` and round. (Every
value rounded here is an exact integer, so any rounding convention
agrees.) -/
def decode_payload (payload : List Char) : Option (List ℤ) :=
  (b64decode payload).map fun bytes =>
    (f32ListOfBytes bytes).map fun q => round (q * 32768)

/-- Observable behaviour of one send duty: a successfully sent payload, a
progress log line (carrying the `processed_chunks` value at emission), the
pacing sleep, the send-failure error log, and the ad-hoc client's
end-of-file log line. -/
inductive SendEvent where
  | sent (payload : List Char)
  | progressLog (processed : ℕ)
  | sleep (d : ℚ)
  | errorLog
  | eofLog
  deriving DecidableEq

/-- The progress logging step of `send_audio`: a log line is emitted iff
`processed_chunks % max(1, total_chunks // 10) == 0`
(`client.py` line 45, `test_client.py` line 94). -/
def progressEvents (total p : ℕ) : List SendEvent :=
  if p % max 1 (total / 10) = 0 then [SendEvent.progressLog p] else []

/-- The payloads of the `sent` events of a send-duty event list, in
order. -/
def sentPayloads (evs : List SendEvent) : List (List Char) :=
  evs.filterMap fun e =>
    match e with
    | .sent p => some p
    | _ => none

namespace AudioClient

/-- The `for chunk in ...read_chunks()` loop of `AudioClient.send_audio`
(`client.py` lines 34-52), driven by the environment traces
`flag i` (the value `shutdown_flag.is_set()` reads at iteration `i`) and
`sendOk i` (whether `ws.send` succeeds at iteration `i`). Arguments: the
remaining chunks, the iteration index, and `processed_chunks`. -/
def sendLoop (total : ℕ) (flag sendOk : ℕ → Bool) (d : ℚ) :
    List (List ℤ) → ℕ → ℕ → List SendEvent
  | [], _, _ => []
  | chunk :: rest, i, p =>
    if flag i then []
    else if sendOk i then
      SendEvent.sent (encode_chunk chunk) ::
        (progressEvents total (p + 1) ++
          SendEvent.sleep d :: sendLoop total flag sendOk d rest (i + 1) (p + 1))
    else [SendEvent.errorLog]

/-- `AudioClient.send_audio` (`client.py` lines 28-56): stream the chunks
of the source file. `total` is the `get_total_chunks` result (passed in;
the claim-level theorems quantify over it). -/
def send_audio (samples : List ℤ) (d : ℚ) (r : ℤ) (total : ℕ)
    (flag sendOk : ℕ → Bool) : List SendEvent :=
  sendLoop total flag sendOk d (read_chunks samples (chunkFrames d r).toNat) 0 0

end AudioClient

/-- The index of the first iteration at which the send loop stops early —
the first `i` (relative to the start index) with `flag i` set or `sendOk i`
false — capped at `n`, the number of chunks. -/
def freeSteps (flag sendOk : ℕ → Bool) : ℕ → ℕ → ℕ
  | _, 0 => 0
  | i, n + 1 => if flag i || !sendOk i then 0 else freeSteps flag sendOk (i + 1) n + 1

/-- One iteration of the receive loop either yields a text message from
`ws.recv()` or raises. -/
inductive RecvStep where
  | msg (s : String)
  | fail
  deriving DecidableEq

/-- Observable behaviour of the receive duty: the parsed-JSON info log, the
plain-text info log (carrying the raw message `s`; the actual log line is
the string interpolation of `s` into the template), and the receive-failure
error log. `V` is the type of parsed JSON values. -/
inductive RecvEvent (V : Type) where
  | logParsed (v : V)
  | logText (s : String)
  | logError

namespace AudioClient

/-- `AudioClient.receive_messages` (`client.py` lines 58-73), driven by a
trace whose element for iteration `i` is
(the `shutdown_flag.is_set()` value read at the top of the loop,
the `ws.recv()` outcome, the `shutdown_flag.is_set()` value read in the
exception handler). `parse` is `json.loads`: `some v` when the message
parses, `none` when it raises `JSONDecodeError`. -/
def receive_messages {V : Type} (parse : String → Option V) :
    List (Bool × RecvStep × Bool) → List (RecvEvent V)
  | [] => []
  | (ftop, step, ffail) :: rest =>
    if ftop then []
    else
      match step with
      | .msg s =>
        (match parse s with
         | some v => RecvEvent.logParsed v
         | none => RecvEvent.logText s) :: receive_messages parse rest
      | .fail => if ffail then [] else [RecvEvent.logError]

end AudioClient

/-- The number of leading trace elements the receive loop fully processes:
it stops at the first element whose top-of-loop flag is set or whose
receive fails. -/
def recvFreeSteps : List (Bool × RecvStep × Bool) → ℕ
  | [] => 0
  | (ftop, step, _) :: rest =>
    if ftop then 0
    else
      match step with
      | .msg _ => recvFreeSteps rest + 1
      | .fail => 0

/-- The single log event produced for one successfully received message:
the parsed structure if it parses as JSON, the raw text otherwise. -/
def recvMsgEvents {V : Type} (parse : String → Option V)
    (el : Bool × RecvStep × Bool) : List (RecvEvent V) :=
  match el.2.1 with
  | .msg s =>
    match parse s with
    | some v => [RecvEvent.logParsed v]
    | none => [RecvEvent.logText s]
  | .fail => []

/-- The events emitted at the iteration at which the receive loop stops
(viewed from the un-processed remainder of the trace): on a receive
failure, an error log exactly when the shutdown flag was not already
set. -/
def recvTail {V : Type} : List (Bool × RecvStep × Bool) → List (RecvEvent V)
  | (ftop, .fail, ffail) :: _ =>
    if ftop then [] else if ffail then [] else [RecvEvent.logError]
  | _ => []

namespace TestClient

/-- `AudioClient._encode_chunk` of the ad-hoc client (`test_client.py`
lines 61-64) — textually identical to `AudioStream.encode_chunk`. -/
def encode_chunk (chunk : List ℤ) : List Char :=
  b64encode ((chunk.map fun s => bytesLE4 (int16ToF32Bits s)).flatten)

/-- The `while not self.shutdown_flag.is_set()` streaming loop of the
ad-hoc `AudioClient.send_audio` (`test_client.py` lines 79-101): the flag
is checked first, then `readframes`; an empty read logs
"Reached end of audio file" and breaks. Same environment traces as the
modular loop. -/
def sendLoop (total : ℕ) (flag sendOk : ℕ → Bool) (d : ℚ) (C : ℕ) :
    List ℤ → ℕ → ℕ → List SendEvent
  | samples, i, p =>
    if flag i then []
    else if h : samples.take C = [] then [SendEvent.eofLog]
    else if sendOk i then
      SendEvent.sent (encode_chunk (samples.take C)) ::
        (progressEvents total (p + 1) ++
          SendEvent.sleep d :: sendLoop total flag sendOk d C (samples.drop C) (i + 1) (p + 1))
    else [SendEvent.errorLog]
termination_by samples _ _ => samples.length
decreasing_by
  rw [List.take_eq_nil_iff] at h
  push_neg at h
  have h1 : samples.length ≠ 0 := by
    intro hlen
    exact h.2 (List.eq_nil_of_length_eq_zero hlen)
  simp only [List.length_drop]
  omega

/-- The ad-hoc `AudioClient.send_audio` (`test_client.py` lines 66-105):
chunk size and total chunk count are computed inline with the same
formulas as `AudioStream`. -/
def send_audio (samples : List ℤ) (d : ℚ) (r : ℤ) (total : ℕ)
    (flag sendOk : ℕ → Bool) : List SendEvent :=
  sendLoop total flag sendOk d (chunkFrames d r).toNat samples 0 0

/-- The ad-hoc `AudioClient.receive_messages` (`test_client.py` lines
107-122) — textually identical to the modular one. -/
def receive_messages {V : Type} (parse : String → Option V) :
    List (Bool × RecvStep × Bool) → List (RecvEvent V)
  | [] => []
  | (ftop, step, ffail) :: rest =>
    if ftop then []
    else
      match step with
      | .msg s =>
        (match parse s with
         | some v => RecvEvent.logParsed v
         | none => RecvEvent.logText s) :: receive_messages parse rest
      | .fail => if ffail then [] else [RecvEvent.logError]

end TestClient

/-- The state of the `websocket.WebSocket` transport object: whether the
underlying socket is still connected. -/
structure WsState where
  connected : Bool
  deriving DecidableEq

/-- `WebSocket.close()`: per the transport contract (spec §6) it is
idempotent — the underlying socket shutdown is performed only when the
socket is still connected (the returned `Bool`); `raises` injects a
hypothetical close-time error (`Except.error`). -/
def ws_close (w : WsState) (raises : Bool) : Except Unit (WsState × Bool) :=
  if raises then .error ()
  else if w.connected then .ok ({ connected := false }, true)
  else .ok (w, false)

/-- The mutable state of an `AudioClient`: the shared shutdown flag and the
transport handle (`none` before `self.ws` is assigned). -/
structure ClientState where
  shutdown_flag : Bool
  ws : Option WsState
  deriving DecidableEq

/-- Observable events of `run`/`shutdown`: a duty event (anything logged or
sent by the sender/receiver threads, of abstract type `α`), the
"Shutting down..." log, the underlying socket close, the "Connected" log,
an error log, and the interrupt log. -/
inductive RunEvent (α : Type) where
  | duty (a : α)
  | shutdownLog
  | sockClose
  | connectLog
  | errorLog
  | interruptLog

/-- Recognizes the "Shutting down..." log event. -/
def isShutdownLog {α : Type} : RunEvent α → Bool
  | .shutdownLog => true
  | _ => false

/-- Recognizes the socket-close event. -/
def isSockClose {α : Type} : RunEvent α → Bool
  | .sockClose => true
  | _ => false

namespace AudioClient

/-- `AudioClient.shutdown` (`client.py` lines 101-109): log
"Shutting down...", set the shared flag, and if `self.ws` is assigned,
close it inside `try`/`except: pass` (any close-time error is
swallowed, leaving the transport state as it was). -/
def shutdown {α : Type} (s : ClientState) (closeRaises : Bool) :
    ClientState × List (RunEvent α) :=
  let s1 : ClientState := { s with shutdown_flag := true }
  match s.ws with
  | none => (s1, [RunEvent.shutdownLog])
  | some w =>
    match ws_close w closeRaises with
    | .ok (w2, closed) =>
      ({ s1 with ws := some w2 },
        RunEvent.shutdownLog :: if closed then [RunEvent.sockClose] else [])
    | .error () => (s1, [RunEvent.shutdownLog])

/-- The ways one `run()` invocation can terminate (`client.py` lines
75-99): the initial `connect` raises; both duties complete and both
`join`s return; an exception from the thread machinery reaches the outer
`except Exception`; a `KeyboardInterrupt` arrives while waiting. -/
inductive RunPath where
  | connectFail
  | normal
  | dutyError
  | interrupt
  deriving DecidableEq

/-- `AudioClient.run` (`client.py` lines 75-99): `self.ws = WebSocket()`
is assigned before `connect`, so `self.ws` is non-`none` on every path;
the `finally` block invokes `shutdown` regardless of how the `try` body
terminated. `duties` abstracts everything the sender/receiver threads
emit. -/
def run {α : Type} (path : RunPath) (duties : List α) (closeRaises : Bool) :
    ClientState × List (RunEvent α) :=
  match path with
  | .connectFail =>
    let s : ClientState := { shutdown_flag := false, ws := some { connected := false } }
    let r := shutdown (α := α) s closeRaises
    (r.1, RunEvent.errorLog :: r.2)
  | .normal =>
    let s : ClientState := { shutdown_flag := false, ws := some { connected := true } }
    let r := shutdown (α := α) s closeRaises
    (r.1, RunEvent.connectLog :: (duties.map RunEvent.duty ++ r.2))
  | .dutyError =>
    let s : ClientState := { shutdown_flag := false, ws := some { connected := true } }
    let r := shutdown (α := α) s closeRaises
    (r.1, RunEvent.connectLog ::
      (duties.map RunEvent.duty ++ RunEvent.errorLog :: r.2))
  | .interrupt =>
    let s : ClientState := { shutdown_flag := false, ws := some { connected := true } }
    let r := shutdown (α := α) s closeRaises
    (r.1, RunEvent.connectLog ::
      (duties.map RunEvent.duty ++ RunEvent.interruptLog :: r.2))

end AudioClient

/-! ## Helper lemmas: ceiling division -/

/-- A quotient `q` with `C*(q-1) < F ≤ C*q` is the ceiling of `F / C`. -/
theorem ceil_eq_of_bounds (F : ℕ) (C q : ℤ) (hC : 0 < C)
    (h1 : C * (q - 1) < (F : ℤ)) (h2 : (F : ℤ) ≤ C * q) :
    ⌈(F : ℚ) / (C : ℚ)⌉ = q := by
  have hCQ : (0 : ℚ) < (C : ℚ) := by exact_mod_cast hC
  rw [Int.ceil_eq_iff]
  constructor
  · rw [lt_div_iff₀ hCQ]
    have h1q : ((C : ℚ)) * ((q : ℚ) - 1) < (F : ℚ) := by exact_mod_cast h1
    nlinarith
  · rw [div_le_iff₀ hCQ]
    have h2q : (F : ℚ) ≤ (C : ℚ) * (q : ℚ) := by exact_mod_cast h2
    nlinarith

/-! ## Helper lemmas: `read_chunks` -/

theorem read_chunks_nil (C : ℕ) : read_chunks [] C = [] := by
  rw [read_chunks]
  simp

theorem read_chunks_cons (samples : List ℤ) (C : ℕ) (h : samples.take C ≠ []) :
    read_chunks samples C = samples.take C :: read_chunks (samples.drop C) C := by
  rw [read_chunks, dif_neg h]

/-- Concatenating the chunks recovers the full sample sequence. -/
theorem read_chunks_flatten : ∀ (samples : List ℤ) (C : ℕ), 1 ≤ C →
    (read_chunks samples C).flatten = samples := by
  intro samples C
  induction samples, C using read_chunks.induct with
  | case1 samples C h =>
    intro hC
    rw [read_chunks, dif_pos h]
    rw [List.take_eq_nil_iff] at h
    rcases h with h | h
    · omega
    · simp [h]
  | case2 samples C h ih =>
    intro hC
    rw [read_chunks, dif_neg h]
    simp only [List.flatten_cons]
    rw [ih hC]
    exact List.take_append_drop C samples

/-- Multiplicative bounds pinning the number of chunks to `⌈F/C⌉`. -/
theorem read_chunks_length_bounds : ∀ (samples : List ℤ) (C : ℕ), 1 ≤ C →
    (C : ℤ) * (((read_chunks samples C).length : ℤ) - 1) < (samples.length : ℤ) ∧
    (samples.length : ℤ) ≤ (C : ℤ) * ((read_chunks samples C).length : ℤ) := by
  intro samples C
  induction samples, C using read_chunks.induct with
  | case1 samples C h =>
    intro hC
    rw [read_chunks, dif_pos h]
    rw [List.take_eq_nil_iff] at h
    rcases h with h | h
    · omega
    · subst h
      have hCZ : (0 : ℤ) < (C : ℤ) := by exact_mod_cast hC
      simp
      linarith
  | case2 samples C h ih =>
    intro hC
    have ihs := ih hC
    rw [read_chunks, dif_neg h]
    rw [List.take_eq_nil_iff] at h
    push_neg at h
    obtain ⟨hC0, hs⟩ := h
    have hslen : 1 ≤ samples.length := List.length_pos.mpr hs
    have hCZ : (0 : ℤ) < (C : ℤ) := by exact_mod_cast hC
    simp only [List.length_cons]
    set L : ℤ := ((read_chunks (samples.drop C) C).length : ℤ) with hL
    have hdrop : ((samples.drop C).length : ℤ) = (samples.length : ℤ) - (C : ℤ)
        ∨ ((samples.drop C).length : ℤ) = 0 ∧ (samples.length : ℤ) ≤ (C : ℤ) := by
      rw [List.length_drop]
      by_cases hle : samples.length ≤ C
      · right
        constructor
        · simp [Nat.sub_eq_zero_of_le hle]
        · exact_mod_cast hle
      · left
        push_neg at hle
        push_cast [Nat.cast_sub (le_of_lt hle)]
        ring
    have e1 : (C : ℤ) * (L - 1) = (C : ℤ) * L - (C : ℤ) := by ring
    have e2 : (C : ℤ) * ((L + 1) - 1) = (C : ℤ) * L := by ring
    have e3 : (C : ℤ) * (L + 1) = (C : ℤ) * L + (C : ℤ) := by ring
    have hcast : ((((read_chunks (samples.drop C) C).length + 1 : ℕ)) : ℤ) = L + 1 := by
      push_cast [hL]
      ring
    rw [hcast]
    rcases hdrop with hd | ⟨hd0, hdle⟩
    · rw [hd] at ihs
      constructor
      · linarith [ihs.1]
      · linarith [ihs.2]
    · -- the drop is empty, so its chunk list is empty and L = 0
      have hdropnil : samples.drop C = [] := by
        have : (samples.drop C).length = 0 := by exact_mod_cast hd0
        exact List.eq_nil_of_length_eq_zero this
      have hL0 : L = 0 := by
        rw [hL, hdropnil, read_chunks_nil]
        simp
      rw [hL0]
      have hslenZ : (1 : ℤ) ≤ (samples.length : ℤ) := by exact_mod_cast hslen
      constructor
      · linarith
      · linarith

/-- Sizes of the yielded chunks: every chunk but the last has exactly `C`
frames, and the last has `F mod C` frames (`C` when `C ∣ F`). -/
theorem read_chunks_sizes : ∀ (samples : List ℤ) (C : ℕ), 1 ≤ C →
    (∀ c ∈ (read_chunks samples C).dropLast, c.length = C) ∧
    (∀ c, (read_chunks samples C).getLast? = some c →
      c.length = if samples.length % C = 0 then C else samples.length % C) := by
  intro samples C
  induction samples, C using read_chunks.induct with
  | case1 samples C h =>
    intro hC
    rw [read_chunks, dif_pos h]
    exact ⟨by simp, by simp⟩
  | case2 samples C h ih =>
    intro hC
    obtain ⟨ih1, ih2⟩ := ih hC
    rw [read_chunks, dif_neg h]
    rw [List.take_eq_nil_iff] at h
    push_neg at h
    obtain ⟨hC0, hs⟩ := h
    have hslen : 1 ≤ samples.length := List.length_pos.mpr hs
    by_cases hrest : read_chunks (samples.drop C) C = []
    · -- a single (final) chunk: the file had at most C frames left
      have htail : samples.length ≤ C := by
        by_contra hgt
        push_neg at hgt
        have hdne : samples.drop C ≠ [] := by
          rw [ne_eq, List.drop_eq_nil_iff]
          omega
        have : (samples.drop C).take C ≠ [] := by
          rw [ne_eq, List.take_eq_nil_iff]
          push_neg
          exact ⟨by omega, hdne⟩
        rw [read_chunks, dif_neg this] at hrest
        exact List.noConfusion hrest
      rw [hrest]
      constructor
      · simp
      · intro c hc
        simp only [List.getLast?_singleton, Option.some.injEq] at hc
        subst hc
        rw [List.length_take]
        have hmin : C ⊓ samples.length = samples.length := by omega
        rw [hmin]
        split_ifs with hmod
        · -- C divides the length, and 1 ≤ length ≤ C forces length = C
          have hdvd : C ∣ samples.length := Nat.dvd_of_mod_eq_zero hmod
          have := Nat.le_of_dvd (by omega) hdvd
          omega
        · have hne : samples.length ≠ C := by
            intro hEq
            rw [hEq] at hmod
            simp at hmod
          rw [Nat.mod_eq_of_lt (by omega)]
    · rw [List.dropLast_cons_of_ne_nil hrest]
      have htake : samples.length > C ∨ samples.length = C := by
        by_contra hlt
        push_neg at hlt
        have : samples.drop C = [] := by
          rw [List.drop_eq_nil_iff]
          omega
        rw [this, read_chunks_nil] at hrest
        exact hrest rfl
      have hCle : C ≤ samples.length := by omega
      constructor
      · intro c hc
        rcases List.mem_cons.mp hc with hc | hc
        · subst hc
          rw [List.length_take]
          omega
        · exact ih1 c hc
      · intro c hc
        rcases hr : read_chunks (samples.drop C) C with _ | ⟨c0, cs⟩
        · exact absurd hr hrest
        · rw [hr, List.getLast?_cons_cons] at hc
          have := ih2 c (by rw [hr]; exact hc)
          rw [List.length_drop, ← Nat.mod_eq_sub_mod hCle] at this
          exact this

/-- Every yielded chunk is non-empty (the loop breaks on an empty read
instead of yielding it) and holds at most `C` frames. -/
theorem read_chunks_mem : ∀ (samples : List ℤ) (C : ℕ),
    ∀ c ∈ read_chunks samples C, c ≠ [] ∧ c.length ≤ C := by
  intro samples C
  induction samples, C using read_chunks.induct with
  | case1 samples C h =>
    rw [read_chunks, dif_pos h]
    intro c hc
    exact absurd hc (List.not_mem_nil c)
  | case2 samples C h ih =>
    rw [read_chunks, dif_neg h]
    intro c hc
    rcases List.mem_cons.mp hc with hc | hc
    · subst hc
      refine ⟨h, ?_⟩
      rw [List.length_take]
      omega
    · exact ih c hc

/-- **C1** (confirmed). For every mono 16-bit sample sequence and every
chunk frame size `C = int(chunk_duration * sample_rate) ≥ 1`,
`read_chunks` yields exactly `⌈F/C⌉` chunks; every chunk except the last
has exactly `C` frames; the last chunk has `F mod C` frames (`C` when
`F mod C = 0`); and the concatenation of the yielded chunks is the file's
full sample sequence in order. -/
theorem read_chunks_partition (samples : List ℤ) (d : ℚ) (r : ℤ)
    (hC : 1 ≤ chunkFrames d r) :
    (((read_chunks samples (chunkFrames d r).toNat).length : ℤ)
        = ⌈(samples.length : ℚ) / ((chunkFrames d r : ℤ) : ℚ)⌉)
    ∧ (∀ c ∈ (read_chunks samples (chunkFrames d r).toNat).dropLast,
        (c.length : ℤ) = chunkFrames d r)
    ∧ (∀ c, (read_chunks samples (chunkFrames d r).toNat).getLast? = some c →
        (c.length : ℤ) = if (samples.length : ℤ) % chunkFrames d r = 0
          then chunkFrames d r else (samples.length : ℤ) % chunkFrames d r)
    ∧ (read_chunks samples (chunkFrames d r).toNat).flatten = samples := by
  set C : ℕ := (chunkFrames d r).toNat with hCdef
  have hCZ : (C : ℤ) = chunkFrames d r := Int.toNat_of_nonneg (by linarith)
  have hC1 : 1 ≤ C := by omega
  refine ⟨?_, ?_, ?_, read_chunks_flatten samples C hC1⟩
  · rw [← hCZ]
    have hb := read_chunks_length_bounds samples C hC1
    have := ceil_eq_of_bounds samples.length (C : ℤ)
      ((read_chunks samples C).length : ℤ) (by exact_mod_cast hC1) hb.1 hb.2
    exact this.symm
  · intro c hc
    have h := (read_chunks_sizes samples C hC1).1 c hc
    rw [h, hCZ]
  · intro c hc
    have h := (read_chunks_sizes samples C hC1).2 c hc
    rw [← hCZ, ← Int.natCast_mod]
    split_ifs with hm
    · have hm0 : samples.length % C = 0 := by exact_mod_cast hm
      rw [h, if_pos hm0]
    · have hm0 : ¬ samples.length % C = 0 := by
        intro h0
        apply hm
        exact_mod_cast h0
      rw [h, if_neg hm0]

/-- Witness for C1: five samples in chunks of `C = int(2 * 1) = 2` give
chunk count `⌈5/2⌉ = 3`, chunk sizes `2, 2, 1`, and concatenate back to
the input. -/
theorem read_chunks_partition_witness :
    1 ≤ chunkFrames 2 1
    ∧ ((((read_chunks [1, 2, 3, 4, 5] (chunkFrames 2 1).toNat).length : ℤ)
          = ⌈(([1, 2, 3, 4, 5] : List ℤ).length : ℚ) / ((chunkFrames 2 1 : ℤ) : ℚ)⌉)
      ∧ (∀ c ∈ (read_chunks [1, 2, 3, 4, 5] (chunkFrames 2 1).toNat).dropLast,
          (c.length : ℤ) = chunkFrames 2 1)
      ∧ (∀ c, (read_chunks [1, 2, 3, 4, 5] (chunkFrames 2 1).toNat).getLast? = some c →
          (c.length : ℤ) = if (([1, 2, 3, 4, 5] : List ℤ).length : ℤ) % chunkFrames 2 1 = 0
            then chunkFrames 2 1 else (([1, 2, 3, 4, 5] : List ℤ).length : ℤ) % chunkFrames 2 1)
      ∧ (read_chunks [1, 2, 3, 4, 5] (chunkFrames 2 1).toNat).flatten = [1, 2, 3, 4, 5]) :=
  ⟨by norm_num [chunkFrames, pyInt],
    read_chunks_partition [1, 2, 3, 4, 5] 2 1 (by norm_num [chunkFrames, pyInt])⟩

/-- **C10** (confirmed). For every chunk frame size `chunk_frames ≥ 1`,
every chunk yielded by `read_chunks` is non-empty and has at most
`chunk_frames` samples: iteration ends by the loop's empty-read `break`,
never by yielding a zero-length chunk. -/
theorem read_chunks_no_empty_chunk (samples : List ℤ) (C : ℕ) (_hC : 1 ≤ C) :
    ∀ c ∈ read_chunks samples C, c ≠ [] ∧ c.length ≤ C :=
  read_chunks_mem samples C

/-- Witness for C10 at three samples with `C = 2`. -/
theorem read_chunks_no_empty_chunk_witness :
    1 ≤ 2 ∧ ∀ c ∈ read_chunks [7, 8, 9] 2, c ≠ [] ∧ c.length ≤ 2 :=
  ⟨by decide, read_chunks_no_empty_chunk [7, 8, 9] 2 (by decide)⟩

/-- **C3 counterexample** (the claim as stated is false). With
`chunk_duration = 1/1000` and `sample_rate = 100` the configuration
validates (`duration > 0`, `rate > 0`, and the file matches), yet
`chunk_frames = int(0.1) = 0`, so `get_total_chunks` raises
`ZeroDivisionError` (modelled as `none`) instead of returning a chunk
count. -/
theorem get_total_chunks_throws_on_validated_config :
    validate_config (.wav ⟨100, 2, 1, [0]⟩) (1 / 1000) 100 = .ok ()
    ∧ chunkFrames (1 / 1000) 100 = 0
    ∧ get_total_chunks (1 / 1000) 100 ⟨100, 2, 1, [0]⟩ = none := by
  have hcf : chunkFrames (1 / 1000) 100 = 0 := by
    norm_num [chunkFrames, pyInt]
  refine ⟨?_, hcf, ?_⟩
  · rw [validate_config]
    norm_num [SourceFile.srcExists]
  · simp only [get_total_chunks, hcf]
    simp

/-- **C3** (corrected). For every validated source, *provided additionally
that `chunk_frames = int(chunk_duration * sample_rate) ≥ 1`*,
`get_total_chunks` does not throw and returns
`⌈totalFrames / chunk_frames⌉`. (Without that proviso the claim fails:
see the counterexample, where a validated configuration yields
`chunk_frames = 0` and a `ZeroDivisionError`.) -/
theorem get_total_chunks_eq_ceil (d : ℚ) (r : ℤ) (f : WavFile)
    (_hv : validate_config (.wav f) d r = .ok ())
    (hC : 1 ≤ chunkFrames d r) :
    get_total_chunks d r f
      = some ⌈(f.samples.length : ℚ) / ((chunkFrames d r : ℤ) : ℚ)⌉ := by
  set C := chunkFrames d r with hC0
  have hCne : C ≠ 0 := by omega
  have hCpos : (0 : ℤ) < C := by omega
  have hCQ : (0 : ℚ) < ((C : ℤ) : ℚ) := by exact_mod_cast hCpos
  simp only [get_total_chunks, ← hC0, if_neg hCne]
  congr 1
  unfold pyFloorDiv
  set F : ℤ := (f.samples.length : ℤ) with hF
  set q := ⌊((F + C - 1 : ℤ) : ℚ) / ((C : ℤ) : ℚ)⌋ with hq
  have hfl := Int.floor_le (((F + C - 1 : ℤ) : ℚ) / ((C : ℤ) : ℚ))
  have hfu := Int.lt_floor_add_one (((F + C - 1 : ℤ) : ℚ) / ((C : ℤ) : ℚ))
  rw [← hq] at hfl hfu
  rw [le_div_iff₀ hCQ] at hfl
  rw [div_lt_iff₀ hCQ] at hfu
  have hfl' : q * C ≤ F + C - 1 := by exact_mod_cast hfl
  have hfu' : F + C - 1 < (q + 1) * C := by exact_mod_cast hfu
  have h2 : F ≤ C * q := by
    have hlt : F < C * q + 1 := by nlinarith
    exact Int.lt_add_one_iff.mp hlt
  have h1 : C * (q - 1) < F := by nlinarith
  have := ceil_eq_of_bounds f.samples.length C q hCpos (by rw [← hF]; exact h1) (by rw [← hF]; exact h2)
  exact this.symm

/-- Witness for the amended C3: a 4 Hz file with 3 frames, half-second
chunks (`chunk_frames = 2`), total chunk count `⌈3/2⌉ = 2`. -/
theorem get_total_chunks_eq_ceil_witness :
    validate_config (.wav ⟨4, 2, 1, [0, 0, 0]⟩) (1 / 2) 4 = .ok ()
    ∧ 1 ≤ chunkFrames (1 / 2) 4
    ∧ get_total_chunks (1 / 2) 4 ⟨4, 2, 1, [0, 0, 0]⟩
        = some ⌈(((⟨4, 2, 1, [0, 0, 0]⟩ : WavFile).samples.length : ℚ))
            / ((chunkFrames (1 / 2) 4 : ℤ) : ℚ)⌉ := by
  have hv : validate_config (.wav ⟨4, 2, 1, [0, 0, 0]⟩) (1 / 2) 4 = .ok () := by
    rw [validate_config]
    norm_num [SourceFile.srcExists]
  have hc : 1 ≤ chunkFrames (1 / 2) 4 := by
    norm_num [chunkFrames, pyInt]
  exact ⟨hv, hc, get_total_chunks_eq_ceil (1 / 2) 4 ⟨4, 2, 1, [0, 0, 0]⟩ hv hc⟩

/-- **C8** (confirmed). There is a configuration with positive chunk
duration and positive sample rate that `validate_config` accepts although
`int(chunk_duration * sample_rate) = 0` — no guard rejects the
zero-chunk-frames case — and for every such configuration
`get_total_chunks` performs a division by zero (`ZeroDivisionError`,
modelled as `none`). -/
theorem zero_chunk_frames_not_rejected :
    (∃ (src : SourceFile) (d : ℚ) (r : ℤ),
        validate_config src d r = .ok () ∧ 0 < d ∧ 0 < r ∧ chunkFrames d r = 0)
    ∧ (∀ (d : ℚ) (r : ℤ) (f : WavFile), chunkFrames d r = 0 →
        get_total_chunks d r f = none) := by
  constructor
  · refine ⟨.wav ⟨100, 2, 1, [0]⟩, 1 / 1000, 100, ?_, by norm_num, by norm_num, ?_⟩
    · rw [validate_config]
      norm_num [SourceFile.srcExists]
    · norm_num [chunkFrames, pyInt]
  · intro d r f h
    simp [get_total_chunks, h]

/-! ## Helper lemmas: base64 -/

theorem b64index_b64char_fin : ∀ n : Fin 64, b64index (b64char n.val) = some n.val := by
  decide

theorem b64char_ne_pad_fin : ∀ n : Fin 64, b64char n.val ≠ '=' := by
  decide

theorem b64index_b64char (n : ℕ) (h : n < 64) : b64index (b64char n) = some n := by
  simpa using b64index_b64char_fin ⟨n, h⟩

theorem b64char_ne_pad (n : ℕ) (h : n < 64) : b64char n ≠ '=' := by
  simpa using b64char_ne_pad_fin ⟨n, h⟩

/-- `base64.b64decode` inverts `base64.b64encode` on byte strings. -/
theorem b64_roundtrip : ∀ bs : List ℕ, (∀ b ∈ bs, b < 256) →
    b64decode (b64encode bs) = some bs := by
  intro bs
  induction bs using b64encode.induct with
  | case1 =>
    intro _
    rfl
  | case2 a =>
    intro hb
    have ha : a < 256 := hb a (by simp)
    simp only [b64encode, b64decode]
    simp [b64index_b64char (a / 4) (by omega : a / 4 < 64),
      b64index_b64char (a % 4 * 16) (by omega : a % 4 * 16 < 64)]
    omega
  | case3 a b =>
    intro hb
    have ha : a < 256 := hb a (by simp)
    have hbb : b < 256 := hb b (by simp)
    simp only [b64encode, b64decode]
    simp [b64char_ne_pad (b % 16 * 4) (by omega : b % 16 * 4 < 64),
      b64index_b64char (a / 4) (by omega : a / 4 < 64),
      b64index_b64char (a % 4 * 16 + b / 16) (by omega : a % 4 * 16 + b / 16 < 64),
      b64index_b64char (b % 16 * 4) (by omega : b % 16 * 4 < 64)]
    omega
  | case4 a b c rest ih =>
    intro hb
    have ha : a < 256 := hb a (by simp)
    have hbb : b < 256 := hb b (by simp)
    have hc : c < 256 := hb c (by simp)
    have hrest : ∀ x ∈ rest, x < 256 := fun x hx => hb x (by simp [hx])
    simp only [b64encode, b64decode]
    simp [b64char_ne_pad (b % 16 * 4 + c / 64) (by omega : b % 16 * 4 + c / 64 < 64),
      b64char_ne_pad (c % 64) (by omega : c % 64 < 64),
      b64index_b64char (a / 4) (by omega : a / 4 < 64),
      b64index_b64char (a % 4 * 16 + b / 16) (by omega : a % 4 * 16 + b / 16 < 64),
      b64index_b64char (b % 16 * 4 + c / 64) (by omega : b % 16 * 4 + c / 64 < 64),
      b64index_b64char (c % 64) (by omega : c % 64 < 64),
      ih hrest]
    omega

/-! ## Helper lemmas: float32 encoding -/

theorem log2_bounds (m : ℕ) (h1 : 1 ≤ m) (h2 : m ≤ 32768) :
    2 ^ Nat.log2 m ≤ m ∧ m < 2 ^ (Nat.log2 m + 1) ∧ Nat.log2 m ≤ 15 := by
  have hk1 : 2 ^ Nat.log2 m ≤ m := Nat.log2_self_le (by omega)
  have hk2 : m < 2 ^ (Nat.log2 m + 1) := Nat.lt_log2_self
  refine ⟨hk1, hk2, ?_⟩
  by_contra hcon
  push_neg at hcon
  have : 2 ^ 16 ≤ 2 ^ Nat.log2 m := Nat.pow_le_pow_right (by norm_num) hcon
  omega

theorem magBits_frac_lt (m : ℕ) (h1 : 1 ≤ m) (h2 : m ≤ 32768) :
    (m - 2 ^ Nat.log2 m) * 2 ^ (23 - Nat.log2 m) < 2 ^ 23 := by
  obtain ⟨hk1, hk2, hk15⟩ := log2_bounds m h1 h2
  set k := Nat.log2 m with hk
  have hpow : 2 ^ (k + 1) = 2 * 2 ^ k := by ring
  have h3 : m - 2 ^ k < 2 ^ k := by omega
  have h4 : (m - 2 ^ k) * 2 ^ (23 - k) < 2 ^ k * 2 ^ (23 - k) :=
    mul_lt_mul_of_pos_right h3 (pow_pos (by norm_num) _)
  have h5 : 2 ^ k * 2 ^ (23 - k) = 2 ^ 23 := by
    rw [← pow_add]
    congr 1
    omega
  omega

theorem magBits_lt (m : ℕ) (h1 : 1 ≤ m) (h2 : m ≤ 32768) : magBits m < 2 ^ 31 := by
  have hfrac := magBits_frac_lt m h1 h2
  obtain ⟨hk1, hk2, hk15⟩ := log2_bounds m h1 h2
  unfold magBits
  set k := Nat.log2 m with hk
  set F := (m - 2 ^ k) * 2 ^ (23 - k) with hF
  omega

/-- The constructed bit pattern for a magnitude `m ∈ [1, 32768]` decodes
to exactly `m / 32768`: the int16-to-float32 conversion and the division
by `32768.0` are both exact. -/
theorem f32Mag_magBits (m : ℕ) (h1 : 1 ≤ m) (h2 : m ≤ 32768) :
    f32Mag (magBits m) = (m : ℚ) / 32768 := by
  have hfrac := magBits_frac_lt m h1 h2
  obtain ⟨hk1, hk2, hk15⟩ := log2_bounds m h1 h2
  unfold f32Mag magBits
  set k := Nat.log2 m with hk
  set F := (m - 2 ^ k) * 2 ^ (23 - k) with hF
  have he : ((112 + k) * 2 ^ 23 + F) / 2 ^ 23 % 2 ^ 8 = 112 + k := by omega
  have hfr : ((112 + k) * 2 ^ 23 + F) % 2 ^ 23 = F := by omega
  rw [he, hfr, if_neg (by omega : ¬ 112 + k = 0)]
  have hexp : ((112 + k : ℕ) : ℤ) - 127 = (k : ℤ) - 15 := by
    push_cast
    ring
  rw [hexp]
  have hFcast : (F : ℚ) = ((m : ℚ) - 2 ^ k) * 2 ^ (23 - k) := by
    rw [hF]
    push_cast [hk1]
    ring
  have hp23 : (2 : ℚ) ^ (23 - k) * 2 ^ k = 2 ^ 23 := by
    rw [← pow_add]
    congr 1
    omega
  have hkey : (1 + (F : ℚ) / 2 ^ 23) * 2 ^ k = (m : ℚ) := by
    rw [hFcast]
    have h23ne : ((2 : ℚ) ^ 23) ≠ 0 := by positivity
    field_simp
    linear_combination ((m : ℚ) - 2 ^ k) * hp23
  have hzpow : (2 : ℚ) ^ ((k : ℤ) - 15) = (2 : ℚ) ^ (k : ℤ) / (2 : ℚ) ^ (15 : ℤ) :=
    zpow_sub₀ (by norm_num) _ _
  rw [hzpow, zpow_natCast]
  have h15 : (2 : ℚ) ^ (15 : ℤ) = 32768 := by norm_num
  rw [h15]
  rw [← mul_div_assoc, hkey]

theorem f32Mag_add_sign (B : ℕ) (_hB : B < 2 ^ 31) : f32Mag (2 ^ 31 + B) = f32Mag B := by
  unfold f32Mag
  have h1 : (2 ^ 31 + B) / 2 ^ 23 % 2 ^ 8 = B / 2 ^ 23 % 2 ^ 8 := by omega
  have h2 : (2 ^ 31 + B) % 2 ^ 23 = B % 2 ^ 23 := by omega
  rw [h1, h2]

/-- Each int16 sample is encoded as exactly the float32 value
`s / 32768`. -/
theorem f32ValOfBits_int16 (s : ℤ) (hlo : -32768 ≤ s) (hhi : s ≤ 32767) :
    f32ValOfBits (int16ToF32Bits s) = (s : ℚ) / 32768 := by
  unfold int16ToF32Bits
  split_ifs with h0 hneg
  · rw [h0]
    norm_num [f32ValOfBits, f32Mag]
  · have hm1 : 1 ≤ s.natAbs := by omega
    have hm2 : s.natAbs ≤ 32768 := by omega
    have hlt := magBits_lt s.natAbs hm1 hm2
    unfold f32ValOfBits
    rw [if_neg (by omega : ¬ (2 ^ 31 + magBits s.natAbs) / 2 ^ 31 = 0)]
    rw [f32Mag_add_sign _ hlt, f32Mag_magBits s.natAbs hm1 hm2]
    have h' : (s.natAbs : ℤ) = -s := by omega
    have hcast : ((s.natAbs : ℚ)) = -(s : ℚ) := by
      calc ((s.natAbs : ℚ)) = (((s.natAbs : ℤ)) : ℚ) := (Int.cast_natCast s.natAbs).symm
      _ = ((-s : ℤ) : ℚ) := by rw [h']
      _ = -(s : ℚ) := by push_cast; ring
    rw [hcast]
    ring
  · have hm1 : 1 ≤ s.natAbs := by omega
    have hm2 : s.natAbs ≤ 32768 := by omega
    have hlt := magBits_lt s.natAbs hm1 hm2
    unfold f32ValOfBits
    rw [if_pos (by omega : magBits s.natAbs / 2 ^ 31 = 0)]
    rw [f32Mag_magBits s.natAbs hm1 hm2]
    have h' : (s.natAbs : ℤ) = s := by omega
    have hcast : ((s.natAbs : ℚ)) = (s : ℚ) := by
      calc ((s.natAbs : ℚ)) = (((s.natAbs : ℤ)) : ℚ) := (Int.cast_natCast s.natAbs).symm
      _ = (s : ℚ) := by rw [h']
    rw [hcast]

theorem int16ToF32Bits_lt (s : ℤ) (hlo : -32768 ≤ s) (hhi : s ≤ 32767) :
    int16ToF32Bits s < 2 ^ 32 := by
  unfold int16ToF32Bits
  split_ifs with h0 hneg
  · norm_num
  · have := magBits_lt s.natAbs (by omega) (by omega)
    omega
  · have := magBits_lt s.natAbs (by omega) (by omega)
    omega

theorem bitsOfBytesLE4_bytesLE4 (bits : ℕ) (h : bits < 2 ^ 32) :
    bitsOfBytesLE4 (bits % 256) (bits / 256 % 256) (bits / 2 ^ 16 % 256)
      (bits / 2 ^ 24 % 256) = bits := by
  unfold bitsOfBytesLE4
  omega

/-- Parsing the little-endian float32 byte serialization of a chunk
recovers the float value `s / 32768` for each sample, in order. -/
theorem f32ListOfBytes_encode (chunk : List ℤ)
    (h : ∀ s ∈ chunk, -32768 ≤ s ∧ s ≤ 32767) :
    f32ListOfBytes ((chunk.map fun s => bytesLE4 (int16ToF32Bits s)).flatten)
      = chunk.map fun s : ℤ => (s : ℚ) / 32768 := by
  induction chunk with
  | nil => rfl
  | cons s rest ih =>
    have hs := h s (by simp)
    have hrest : ∀ x ∈ rest, -32768 ≤ x ∧ x ≤ 32767 := fun x hx => h x (by simp [hx])
    rw [List.map_cons, List.flatten_cons, List.map_cons]
    have hb4 : bytesLE4 (int16ToF32Bits s) = [int16ToF32Bits s % 256,
        int16ToF32Bits s / 256 % 256, int16ToF32Bits s / 2 ^ 16 % 256,
        int16ToF32Bits s / 2 ^ 24 % 256] := rfl
    rw [hb4]
    simp only [List.cons_append, List.nil_append]
    rw [f32ListOfBytes]
    rw [bitsOfBytesLE4_bytesLE4 _ (int16ToF32Bits_lt s hs.1 hs.2)]
    rw [f32ValOfBits_int16 s hs.1 hs.2, ih hrest]

theorem encode_bytes_lt (chunk : List ℤ) :
    ∀ b ∈ (chunk.map fun s => bytesLE4 (int16ToF32Bits s)).flatten, b < 256 := by
  intro b hb
  rw [List.mem_flatten] at hb
  obtain ⟨l, hl, hbl⟩ := hb
  rw [List.mem_map] at hl
  obtain ⟨s, _, rfl⟩ := hl
  unfold bytesLE4 at hbl
  simp at hbl
  rcases hbl with h | h | h | h <;> omega

/-- **C2** (confirmed). Encoding is deterministic — `encode_chunk` is a
pure function of the sample values — and lossless: each sample `s` maps to
the float32 value `s / 32768`, and base64-decoding the payload to
little-endian 32-bit floats, multiplying each by `32768` and rounding
reproduces the original int16 samples exactly (hence within `±1`). -/
theorem encode_chunk_lossless (chunk : List ℤ)
    (h : ∀ s ∈ chunk, -32768 ≤ s ∧ s ≤ 32767) :
    ((b64decode (encode_chunk chunk)).map fun bytes => f32ListOfBytes bytes)
        = some (chunk.map fun s : ℤ => (s : ℚ) / 32768)
    ∧ decode_payload (encode_chunk chunk) = some chunk := by
  have hb := b64_roundtrip _ (encode_bytes_lt chunk)
  have hf := f32ListOfBytes_encode chunk h
  constructor
  · rw [encode_chunk, hb]
    simp [hf]
  · rw [decode_payload, encode_chunk, hb]
    simp only [Option.map_some', hf, Option.some.injEq]
    rw [List.map_map]
    have hper : ∀ s : ℤ, ((fun q : ℚ => round (q * 32768)) ∘ fun s : ℤ => (s : ℚ) / 32768) s = s := by
      intro s
      simp only [Function.comp_apply]
      have hmul : (s : ℚ) / 32768 * 32768 = (s : ℚ) := by
        field_simp
      rw [hmul, round_intCast]
    calc List.map ((fun q : ℚ => round (q * 32768)) ∘ fun s : ℤ => (s : ℚ) / 32768) chunk
        = List.map id chunk := List.map_congr_left fun s _ => hper s
    _ = chunk := List.map_id chunk

/-- Witness for C2 at the chunk `[0, 1, -32768, 32767]`. -/
theorem encode_chunk_lossless_witness :
    (∀ s ∈ ([0, 1, -32768, 32767] : List ℤ), -32768 ≤ s ∧ s ≤ 32767)
    ∧ (((b64decode (encode_chunk [0, 1, -32768, 32767])).map fun bytes => f32ListOfBytes bytes)
          = some (([0, 1, -32768, 32767] : List ℤ).map fun s : ℤ => (s : ℚ) / 32768)
      ∧ decode_payload (encode_chunk [0, 1, -32768, 32767]) = some [0, 1, -32768, 32767]) :=
  ⟨by decide, encode_chunk_lossless [0, 1, -32768, 32767] (by decide)⟩

/-! ## The receive duty (C6) -/

/-- **C6** (confirmed). For every inbound-message trace, the receive duty
processes messages until the first set flag or receive failure; each
received message produces exactly one log — the parsed structure when
`json.loads` succeeds, the raw text verbatim when it raises — and on a
receive failure the loop exits, silently when the shutdown flag is already
set and with a single error log otherwise. -/
theorem receive_messages_behaviour {V : Type} (parse : String → Option V)
    (trace : List (Bool × RecvStep × Bool)) :
    AudioClient.receive_messages parse trace =
      ((trace.take (recvFreeSteps trace)).map (recvMsgEvents parse)).flatten
        ++ recvTail (trace.drop (recvFreeSteps trace)) := by
  induction trace with
  | nil => rfl
  | cons el rest ih =>
    obtain ⟨ftop, step, ffail⟩ := el
    cases ftop
    · cases step with
      | msg s =>
        cases hp : parse s <;>
          simp [AudioClient.receive_messages, recvFreeSteps, recvMsgEvents, recvTail, hp, ih]
      | fail =>
        cases ffail <;>
          simp [AudioClient.receive_messages, recvFreeSteps, recvTail]
    · cases step <;>
        simp [AudioClient.receive_messages, recvFreeSteps, recvTail]

/-! ## The send duty (C5) -/

/-- Closed form of the send loop, for any start index `i` and any starting
`processed_chunks` value `p`. -/
theorem sendLoop_closed_form (total : ℕ) (flag sendOk : ℕ → Bool) (d : ℚ) :
    ∀ (chunks : List (List ℤ)) (i p : ℕ),
      AudioClient.sendLoop total flag sendOk d chunks i p =
        ((List.range (freeSteps flag sendOk i chunks.length)).map fun j =>
          SendEvent.sent (encode_chunk (chunks.getD j [])) ::
            (progressEvents total (p + j + 1) ++ [SendEvent.sleep d])).flatten
        ++ (if freeSteps flag sendOk i chunks.length < chunks.length
              ∧ flag (i + freeSteps flag sendOk i chunks.length) = false
            then [SendEvent.errorLog] else []) := by
  intro chunks
  induction chunks with
  | nil =>
    intro i p
    simp [AudioClient.sendLoop, freeSteps]
  | cons chunk rest ih =>
    intro i p
    cases hflag : flag i
    · cases hok : sendOk i
      · simp [AudioClient.sendLoop, hflag, hok, freeSteps]
      · have hfs : freeSteps flag sendOk i (rest.length + 1)
            = freeSteps flag sendOk (i + 1) rest.length + 1 := by
          simp [freeSteps, hflag, hok]
        simp only [AudioClient.sendLoop, hflag, hok, Bool.false_eq_true, if_false, if_true,
          List.length_cons]
        simp only [hfs]
        rw [List.range_succ_eq_map]
        simp only [List.map_cons, List.flatten_cons, List.map_map, List.getD_cons_zero]
        rw [ih (i + 1) (p + 1)]
        have harith1 : p + 0 + 1 = p + 1 := by ring
        have hcond1 : freeSteps flag sendOk (i + 1) rest.length + 1 < rest.length + 1
            ↔ freeSteps flag sendOk (i + 1) rest.length < rest.length := by omega
        have hcond2 : i + (freeSteps flag sendOk (i + 1) rest.length + 1)
            = i + 1 + freeSteps flag sendOk (i + 1) rest.length := by ring
        have hmapeq : (List.map (fun j => SendEvent.sent (encode_chunk (rest.getD j [])) ::
              (progressEvents total (p + 1 + j + 1) ++ [SendEvent.sleep d]))
              (List.range (freeSteps flag sendOk (i + 1) rest.length)))
            = List.map ((fun j => SendEvent.sent (encode_chunk ((chunk :: rest).getD j [])) ::
              (progressEvents total (p + j + 1) ++ [SendEvent.sleep d])) ∘ Nat.succ)
              (List.range (freeSteps flag sendOk (i + 1) rest.length)) := by
          apply List.map_congr_left
          intro j _
          simp only [Function.comp_apply, List.getD_cons_succ]
          have : p + 1 + j + 1 = p + (j + 1) + 1 := by ring
          rw [this]
        rw [hmapeq]
        simp only [harith1, hcond2, hcond1]
        simp [List.append_assoc]
    · cases hstep : rest with
      | nil => simp [AudioClient.sendLoop, hflag, freeSteps]
      | cons a b => simp [AudioClient.sendLoop, hflag, freeSteps]

/-- **C5** (confirmed). For every chunk sequence and every trace of
shutdown-flag reads and send outcomes, the send loop of
`AudioClient.send_audio` runs through exactly the first
`K = freeSteps flag sendOk 0 chunks.length` chunks (it checks the
shutdown flag before each send and stops without sending when it is set,
and stops at the first failed send); each processed chunk `j` contributes,
in order, the encoded payload being sent, a progress log exactly when
`(j+1) % max(1, total/10) = 0` (the counter incremented after the
successful send), and the `chunk_duration` pacing sleep; a final error log
appears exactly when the loop stopped at a send failure (never on
shutdown), and nothing is sent or retried afterwards. -/
theorem send_audio_behaviour (chunks : List (List ℤ)) (total : ℕ)
    (flag sendOk : ℕ → Bool) (d : ℚ) :
    AudioClient.sendLoop total flag sendOk d chunks 0 0 =
      ((List.range (freeSteps flag sendOk 0 chunks.length)).map fun j =>
        SendEvent.sent (encode_chunk (chunks.getD j [])) ::
          (progressEvents total (j + 1) ++ [SendEvent.sleep d])).flatten
      ++ (if freeSteps flag sendOk 0 chunks.length < chunks.length
            ∧ flag (freeSteps flag sendOk 0 chunks.length) = false
          then [SendEvent.errorLog] else []) := by
  have h := sendLoop_closed_form total flag sendOk d chunks 0 0
  simpa using h

/-! ## Equivalence of the two client implementations (C9) -/

/-- The ad-hoc `_encode_chunk` is the same function as the modular
`encode_chunk` (the two method bodies are textually identical). -/
theorem tc_encode_eq : TestClient.encode_chunk = encode_chunk := rfl

theorem sentPayloads_append (l1 l2 : List SendEvent) :
    sentPayloads (l1 ++ l2) = sentPayloads l1 ++ sentPayloads l2 :=
  List.filterMap_append l1 l2 _

theorem sentPayloads_progress (total p : ℕ) :
    sentPayloads (progressEvents total p) = [] := by
  unfold progressEvents sentPayloads
  split <;> simp

/-- The ad-hoc send loop (flag checked before the read, end-of-file log)
and the modular send loop (generator read before the flag check, no
end-of-file log) send exactly the same payload sequence, for every
starting index and counter value. -/
theorem sendLoop_payloads_equiv_aux (total : ℕ) (flag sendOk : ℕ → Bool) (d : ℚ) (C : ℕ) :
    ∀ (n : ℕ) (samples : List ℤ), samples.length ≤ n → ∀ (i p : ℕ),
      sentPayloads (TestClient.sendLoop total flag sendOk d C samples i p)
        = sentPayloads (AudioClient.sendLoop total flag sendOk d (read_chunks samples C) i p) := by
  intro n
  induction n with
  | zero =>
    intro samples hlen i p
    have hnil : samples = [] := by
      cases samples with
      | nil => rfl
      | cons a l => simp at hlen
    subst hnil
    rw [TestClient.sendLoop, read_chunks]
    cases hflag : flag i <;> simp [AudioClient.sendLoop, hflag, sentPayloads]
  | succ n ihn =>
    intro samples hlen i p
    cases hflag : flag i
    · by_cases htake : samples.take C = []
      · rw [TestClient.sendLoop, read_chunks, dif_pos htake]
        simp [hflag, htake, AudioClient.sendLoop, sentPayloads]
      · rw [read_chunks, dif_neg htake]
        have hC1 : 1 ≤ C := by
          rcases List.take_eq_nil_iff.not.mp htake with h
          push_neg at h
          omega
        have hsne : samples ≠ [] := by
          rcases List.take_eq_nil_iff.not.mp htake with h
          push_neg at h
          exact h.2
        cases hok : sendOk i
        · rw [TestClient.sendLoop]
          simp [hflag, htake, hok, AudioClient.sendLoop, sentPayloads]
        · rw [TestClient.sendLoop]
          simp only [hflag, htake, hok, Bool.false_eq_true, if_false, if_true, dif_neg htake]
          have hdlen : (samples.drop C).length ≤ n := by
            have h1 : 1 ≤ samples.length := List.length_pos.mpr hsne
            simp only [List.length_drop]
            omega
          have ihd := ihn (samples.drop C) hdlen (i + 1) (p + 1)
          simp only [sentPayloads] at ihd
          simp only [AudioClient.sendLoop, hflag, hok, Bool.false_eq_true, if_false, if_true]
          simp [sentPayloads, List.filterMap_append, sentPayloads_progress, ihd, tc_encode_eq]
    · rw [TestClient.sendLoop, read_chunks]
      by_cases htake : samples.take C = []
      · simp [hflag, htake, AudioClient.sendLoop, sentPayloads]
      · simp [hflag, htake, AudioClient.sendLoop, sentPayloads, dif_neg htake]

/-- The two receive loops (textually identical in the source) produce
identical event lists on every trace. -/
theorem receive_messages_equiv {V : Type} (parse : String → Option V) :
    ∀ trace, TestClient.receive_messages parse trace
      = AudioClient.receive_messages parse trace := by
  intro trace
  induction trace with
  | nil => rfl
  | cons el rest ih =>
    obtain ⟨ftop, step, ffail⟩ := el
    cases ftop
    · cases step with
      | msg s =>
        cases hp : parse s <;>
          simp [TestClient.receive_messages, AudioClient.receive_messages, hp, ih]
      | fail =>
        cases ffail <;>
          simp [TestClient.receive_messages, AudioClient.receive_messages]
    · cases step <;>
        simp [TestClient.receive_messages, AudioClient.receive_messages]

/-- **C9** (confirmed). For every audio file, configuration, shutdown-flag
trace and transport-outcome trace, the ad-hoc client (`test_client.py`)
and the refactored modular client (`tunnels/client.py` with
`tunnels/audio.py`) are behaviourally equivalent in the claimed sense:
their send loops produce the same sequence of sent payloads, and their
receive loops produce the same logging and termination behaviour. -/
theorem clients_equivalent (samples : List ℤ) (d : ℚ) (r : ℤ) (total : ℕ)
    (flag sendOk : ℕ → Bool) :
    sentPayloads (TestClient.send_audio samples d r total flag sendOk)
      = sentPayloads (AudioClient.send_audio samples d r total flag sendOk)
    ∧ ∀ (V : Type) (parse : String → Option V) (trace : List (Bool × RecvStep × Bool)),
        TestClient.receive_messages parse trace = AudioClient.receive_messages parse trace := by
  constructor
  · rw [TestClient.send_audio, AudioClient.send_audio]
    exact sendLoop_payloads_equiv_aux total flag sendOk d (chunkFrames d r).toNat
      samples.length samples le_rfl 0 0
  · intro V parse trace
    exact receive_messages_equiv parse trace

/-! ## Shutdown and run (C7) -/

/-- Every `shutdown` call emits exactly one "Shutting down..." log,
whatever the state and whether or not the transport close raises. -/
theorem shutdown_filter_log {α : Type} (s : ClientState) (b : Bool) :
    ((AudioClient.shutdown (α := α) s b).2.filter isShutdownLog) = [RunEvent.shutdownLog] := by
  cases s with
  | mk fl ws =>
    cases ws with
    | none => simp [AudioClient.shutdown, isShutdownLog]
    | some w =>
      cases b <;> cases hw : w.connected <;>
        simp [AudioClient.shutdown, ws_close, hw, isShutdownLog]

/-- **C7** (confirmed). `AudioClient.shutdown` always sets the shared
shutdown flag and returns normally even when the transport close raises
(the error is swallowed by `try`/`except: pass`); calling it twice
produces no error and no duplicate close side effects — the second call
leaves the state unchanged and performs no underlying socket close; and
`run` invokes `shutdown` exactly once, at the end of the event stream, on
every termination path (connect failure, normal completion, duty failure,
external interrupt). -/
theorem shutdown_contract :
    (∀ (s : ClientState) (b : Bool),
      ((AudioClient.shutdown (α := Unit) s b).1).shutdown_flag = true)
    ∧ (∀ s : ClientState,
      (AudioClient.shutdown (α := Unit)
          ((AudioClient.shutdown (α := Unit) s false).1) false).1
        = (AudioClient.shutdown (α := Unit) s false).1
      ∧ ((AudioClient.shutdown (α := Unit)
          ((AudioClient.shutdown (α := Unit) s false).1) false).2.filter isSockClose) = [])
    ∧ (∀ (α : Type) (path : AudioClient.RunPath) (duties : List α) (b : Bool),
      ((AudioClient.run path duties b).2.filter isShutdownLog).length = 1
      ∧ ∃ (pre : List (RunEvent α)) (s0 : ClientState),
          (AudioClient.run path duties b).2 = pre ++ (AudioClient.shutdown (α := α) s0 b).2
          ∧ pre.filter isShutdownLog = []) := by
  refine ⟨?_, ?_, ?_⟩
  · intro s b
    cases s with
    | mk fl ws =>
      cases ws with
      | none => simp [AudioClient.shutdown]
      | some w =>
        cases b <;> cases hw : w.connected <;>
          simp [AudioClient.shutdown, ws_close, hw]
  · intro s
    cases s with
    | mk fl ws =>
      cases ws with
      | none => refine ⟨?_, ?_⟩ <;> simp [AudioClient.shutdown, isSockClose]
      | some w =>
        cases hw : w.connected <;>
          refine ⟨?_, ?_⟩ <;>
            simp [AudioClient.shutdown, ws_close, hw, isSockClose]
  · intro α path duties b
    have hduty : (duties.map (RunEvent.duty (α := α))).filter isShutdownLog = [] := by
      induction duties with
      | nil => rfl
      | cons a l ih => simp [isShutdownLog, ih]
    cases path with
    | connectFail =>
      refine ⟨?_, [RunEvent.errorLog], ⟨false, some ⟨false⟩⟩, rfl, by simp [isShutdownLog]⟩
      simp [AudioClient.run, List.filter_append, shutdown_filter_log, isShutdownLog]
    | normal =>
      refine ⟨?_, RunEvent.connectLog :: duties.map RunEvent.duty, ⟨false, some ⟨true⟩⟩,
        by simp [AudioClient.run], ?_⟩
      · simp [AudioClient.run, List.filter_append, shutdown_filter_log, isShutdownLog, hduty]
      · simp [isShutdownLog, hduty]
    | dutyError =>
      refine ⟨?_, RunEvent.connectLog :: (duties.map RunEvent.duty ++ [RunEvent.errorLog]),
        ⟨false, some ⟨true⟩⟩, by simp [AudioClient.run, List.append_assoc], ?_⟩
      · simp [AudioClient.run, List.filter_append, shutdown_filter_log, isShutdownLog, hduty]
      · simp [isShutdownLog, List.filter_append, hduty]
    | interrupt =>
      refine ⟨?_, RunEvent.connectLog :: (duties.map RunEvent.duty ++ [RunEvent.interruptLog]),
        ⟨false, some ⟨true⟩⟩, by simp [AudioClient.run, List.append_assoc], ?_⟩
      · simp [AudioClient.run, List.filter_append, shutdown_filter_log, isShutdownLog, hduty]
      · simp [isShutdownLog, List.filter_append, hduty]

/-! ## Validation (C4) -/

theorem string_ne_app_app (p q x y : String) (hp : 9 ≤ p.data.length)
    (hq : 9 ≤ q.data.length) (hne : p.data.take 9 ≠ q.data.take 9) :
    p ++ x ≠ q ++ y := by
  intro h
  apply hne
  have hd : p.data ++ x.data = q.data ++ y.data := by
    have := congrArg String.data h
    simpa [String.data_append] using this
  calc p.data.take 9 = (p.data ++ x.data).take 9 :=
        (List.take_append_of_le_length hp).symm
  _ = (q.data ++ y.data).take 9 := by rw [hd]
  _ = q.data.take 9 := List.take_append_of_le_length hq

theorem string_ne_app_lit (p q x : String) (hp : 9 ≤ p.data.length)
    (hne : p.data.take 9 ≠ q.data.take 9) : p ++ x ≠ q := by
  intro h
  apply hne
  have hd : p.data ++ x.data = q.data := by
    have := congrArg String.data h
    simpa [String.data_append] using this
  calc p.data.take 9 = (p.data ++ x.data).take 9 :=
        (List.take_append_of_le_length hp).symm
  _ = q.data.take 9 := by rw [hd]

theorem string_ne_lit_app (p q y : String) (hq : 9 ≤ q.data.length)
    (hne : p.data.take 9 ≠ q.data.take 9) : p ≠ q ++ y := by
  intro h
  apply hne
  have hd : p.data = q.data ++ y.data := by
    have := congrArg String.data h
    simpa [String.data_append] using this
  calc p.data.take 9 = (q.data ++ y.data).take 9 := by rw [hd]
  _ = q.data.take 9 := List.take_append_of_le_length hq

/-- **C4** (confirmed). `validate_config` checks, in order: (a) file
existence, (b) `chunk_duration > 0`, (c) `sample_rate > 0`, (d) the
file's frame rate equals the configured rate, (e) 16-bit sample width,
(f) mono; the first failing check determines the error raised (each iff
below characterizes one error as "all earlier checks pass and this one
fails"); a file that cannot be parsed as a WAV container fails with the
format-specific `Invalid WAV file` error; a call where all checks pass
raises no error; and the failure cases all produce pairwise distinct
error messages. -/
theorem validate_config_spec :
    (∀ (src : SourceFile) (d : ℚ) (r : ℤ),
      (validate_config src d r = .error .fileNotFound ↔ src = .missing)
      ∧ (validate_config src d r = .error .invalidChunkDuration
          ↔ src ≠ .missing ∧ d ≤ 0)
      ∧ (validate_config src d r = .error .invalidSampleRate
          ↔ src ≠ .missing ∧ 0 < d ∧ r ≤ 0)
      ∧ (∀ w, validate_config src d r = .error (.invalidWav w)
          ↔ src = .notWav w ∧ 0 < d ∧ 0 < r)
      ∧ (∀ f, src = .wav f →
          ((validate_config src d r = .error (.sampleRateMismatch r f.framerate)
              ↔ 0 < d ∧ 0 < r ∧ (f.framerate : ℤ) ≠ r)
          ∧ (validate_config src d r = .error .notSixteenBit
              ↔ 0 < d ∧ 0 < r ∧ (f.framerate : ℤ) = r ∧ f.sampwidth ≠ 2)
          ∧ (validate_config src d r = .error .notMono
              ↔ 0 < d ∧ 0 < r ∧ (f.framerate : ℤ) = r ∧ f.sampwidth = 2
                  ∧ f.nchannels ≠ 1)
          ∧ (validate_config src d r = .ok ()
              ↔ 0 < d ∧ 0 < r ∧ (f.framerate : ℤ) = r ∧ f.sampwidth = 2
                  ∧ f.nchannels = 1))))
    ∧ (∀ (srcR dR : String) (e1 e2 : ConfigError),
        e1.ctorIdx ≠ e2.ctorIdx →
        ConfigError.message srcR dR e1 ≠ ConfigError.message srcR dR e2) := by
  constructor
  · intro src d r
    rcases src with _ | w' | f'
    · simp [validate_config, SourceFile.srcExists]
    · by_cases hd : d ≤ 0 <;> by_cases hr : r ≤ 0 <;>
        simp [validate_config, SourceFile.srcExists, hd, hr, not_le] <;>
          first
            | exact lt_of_not_le hd
            | exact lt_of_not_le hr
            | exact ⟨lt_of_not_le hd, lt_of_not_le hr⟩
    · by_cases hd : d ≤ 0 <;> by_cases hr : r ≤ 0 <;>
        by_cases hfr : (f'.framerate : ℤ) = r <;> by_cases hsw : f'.sampwidth = 2 <;>
          by_cases hch : f'.nchannels = 1 <;>
            simp [validate_config, SourceFile.srcExists, hd, hr, hfr, hsw, hch, not_le] <;>
              first
                | exact lt_of_not_le hd
                | exact lt_of_not_le hr
                | exact ⟨lt_of_not_le hd, lt_of_not_le hr⟩
  · intro srcR dR e1 e2 hne
    cases e1 <;> cases e2 <;>
      simp only [ConfigError.message] <;>
      first
        | exact absurd rfl hne
        | exact string_ne_app_app _ _ _ _ (by decide) (by decide) (by decide)
        | exact string_ne_app_lit _ _ _ (by decide) (by decide)
        | exact string_ne_lit_app _ _ _ (by decide) (by decide)
        | decide
